import Mathlib

/-
Verification development for the merge-to-md utility
(src/llm-helpers/merge-to-md.js).

The JavaScript source is shallowly embedded below.  Strings are modelled
as Lean strings; where the source manipulates strings character by
character (splitting on newlines, trimming, regex matching) we work on
the underlying character list (String.data).  JavaScript operates on
UTF-16 code units while Lean chars are Unicode scalar values; the two
agree on every code point below U+10000, which covers all inputs
considered here.
-/

set_option maxRecDepth 10000
set_option maxHeartbeats 1000000

/- ===================== DEFINITIONS ===================== -/

/-- Character class trimmed by JavaScript String.prototype.trim:
WhiteSpace (tab, VT, FF, space, NBSP, BOM and the Unicode space
separators) together with the LineTerminator code points. -/
def isJsWhitespace (c : Char) : Bool :=
  (0x09 ≤ c.toNat && c.toNat ≤ 0x0D) || c.toNat = 0x20 || c.toNat = 0xA0 ||
  c.toNat = 0x1680 || (0x2000 ≤ c.toNat && c.toNat ≤ 0x200A) ||
  c.toNat = 0x202F || c.toNat = 0x205F || c.toNat = 0x3000 ||
  c.toNat = 0xFEFF || c.toNat = 0x2028 || c.toNat = 0x2029

/-- JavaScript String.prototype.trim on a character list. -/
def jsTrim (cs : List Char) : List Char :=
  ((cs.dropWhile isJsWhitespace).reverse.dropWhile isJsWhitespace).reverse

/-- JavaScript line terminators, the code points not matched by an
unflagged dot in a JavaScript regular expression. -/
def isLineTerminator (c : Char) : Bool :=
  c.toNat = 0x0A || c.toNat = 0x0D || c.toNat = 0x2028 || c.toNat = 0x2029

/-- Node.js path.posix.basename: the last non-empty path segment, with
trailing separators ignored; empty when the path has no such segment. -/
def basenameChars (cs : List Char) : List Char :=
  (((cs.reverse.dropWhile (· = '/'))).takeWhile (· ≠ '/')).reverse

/-
Glob matcher (merge-to-md.js, function matchesGlob, lines 144-164).

The source builds a JavaScript regular expression from the pattern:

  escaped = p.replace(/[.+^$\x7b\x7d()|[\]\\]/g, "\\$&")   -- escape step
              .replace(of two stars, GLOBSTAR marker)
              .replace(of one star, STAR marker)
  reStr   = markers replaced by ".*" and "[^/]*"
  re      = new RegExp("^" + reStr + "$"); re.test(relPath)

We embed the generated regex as a token list followed by a backtracking
acceptance checker.  After the escape step the only character of the
pattern that is still a regex metacharacter is the question mark (it is
absent from the escape character class), so the generated regex consists
of literal characters, ".*" pieces, "[^/]*" pieces, and "?" quantifiers.
-/

/-- Characters escaped by the escape step of matchesGlob.  This is
exactly the character class of the first replace call in the source. -/
def regexEscapeSet : List Char :=
  ['.', '+', '^', '$', '{', '}', '(', ')', '|', '[', ']', '\\']

/-- Tokens of the regular expression generated by matchesGlob. -/
inductive GTok where
  | lit (c : Char)
  | quest
  | star
  | globstar
deriving DecidableEq

/-- Tokenization of the trimmed pattern as performed by the source's
replace chain: adjacent star pairs become GLOBSTAR (".*"), remaining
stars become STAR ("[^/]*"), characters of the escape class become
escaped literals, a question mark stays an unescaped regex quantifier,
and every other character is a literal. -/
def globToks : List Char → List GTok
  | [] => []
  | '*' :: '*' :: rest => .globstar :: globToks rest
  | '*' :: rest => .star :: globToks rest
  | c :: rest =>
    if regexEscapeSet.contains c then .lit c :: globToks rest
    else if c = '?' then .quest :: globToks rest
    else .lit c :: globToks rest

/-- Atoms of the generated regex after quantifier resolution. -/
inductive GAtom where
  | lit (c : Char)
  | litOpt (c : Char)
  | star
  | globstar
deriving DecidableEq

/-- Resolve question-mark quantifiers the way the JavaScript regex
engine parses the generated pattern: a quest after a literal makes it
optional (a second quest is the lazy marker, irrelevant for
acceptance); a single quest after a star piece is the lazy marker
(again irrelevant for acceptance); anything else - a quest with nothing
to repeat, or a quest quantifying an already quantified star piece -
makes the regex invalid, and the RegExp constructor would throw. -/
def compileAtoms : List GTok → Option (List GAtom)
  | [] => some []
  | .lit _ :: .quest :: .quest :: .quest :: _ => none
  | .lit c :: .quest :: .quest :: rest =>
    (compileAtoms rest).map (fun as => .litOpt c :: as)
  | .lit c :: .quest :: rest =>
    (compileAtoms rest).map (fun as => .litOpt c :: as)
  | .lit c :: rest => (compileAtoms rest).map (fun as => .lit c :: as)
  | .star :: .quest :: .quest :: _ => none
  | .star :: .quest :: rest => (compileAtoms rest).map (fun as => .star :: as)
  | .star :: rest => (compileAtoms rest).map (fun as => .star :: as)
  | .globstar :: .quest :: .quest :: _ => none
  | .globstar :: .quest :: rest =>
    (compileAtoms rest).map (fun as => .globstar :: as)
  | .globstar :: rest => (compileAtoms rest).map (fun as => .globstar :: as)
  | .quest :: _ => none

/-- Backtracking acceptance check for the generated anchored regex.
The parameter gs tells which characters the globstar piece may consume
(for the generated JavaScript regex ".*" this is every character except
a line terminator); the star piece consumes any character except '/'.
The fuel argument only forces structural termination: every recursive
call strictly decreases the combined length of the remaining atom and
character lists, so any fuel larger than that combined length is
enough, and the chosen fuel never runs out. -/
def amatchFuel (gs : Char → Bool) : Nat → List GAtom → List Char → Bool
  | 0, _, _ => false
  | _ + 1, [], [] => true
  | _ + 1, [], _ :: _ => false
  | _ + 1, .lit _ :: _, [] => false
  | f + 1, .lit c :: as, x :: xs => c = x && amatchFuel gs f as xs
  | f + 1, .litOpt _ :: as, [] => amatchFuel gs f as []
  | f + 1, .litOpt c :: as, x :: xs =>
    amatchFuel gs f as (x :: xs) || (c = x && amatchFuel gs f as xs)
  | f + 1, .star :: as, [] => amatchFuel gs f as []
  | f + 1, .star :: as, x :: xs =>
    amatchFuel gs f as (x :: xs) || (x ≠ '/' && amatchFuel gs f (.star :: as) xs)
  | f + 1, .globstar :: as, [] => amatchFuel gs f as []
  | f + 1, .globstar :: as, x :: xs =>
    amatchFuel gs f as (x :: xs) || (gs x && amatchFuel gs f (.globstar :: as) xs)

/-- Run the generated anchored regex against a full character list. -/
def runGlobRegex (gs : Char → Bool) (atoms : List GAtom) (cs : List Char) : Bool :=
  amatchFuel gs (atoms.length + cs.length + 1) atoms cs

/-- Embedding of matchesGlob (merge-to-md.js lines 144-164).
Trims the pattern; an empty result never matches; a pattern without a
star matches the full path, a "/"-prefixed suffix, or the basename; a
pattern with a star is compiled to the anchored regex described above.
When the generated regex is syntactically invalid the RegExp
constructor in the source throws and the propagated exception aborts
the run; we return false for such patterns, which no claim exercises. -/
def matchesGlob (relPath pattern : String) : Bool :=
  let p := jsTrim pattern.data
  if p.isEmpty then false
  else if p.contains '*' then
    match compileAtoms (globToks p) with
    | none => false
    | some atoms => runGlobRegex (fun c => !isLineTerminator c) atoms relPath.data
  else
    (relPath.data = p : Bool) || ((('/' :: p)).isSuffixOf relPath.data) ||
      (basenameChars relPath.data = p : Bool)

/-- Modelled from the spec (section 4.1): the glob construction exactly
as the specification words it - every regex metacharacter of the
pattern except the star is escaped, so every non-star character
(a question mark included) is matched literally. -/
def specToksLiteral : List Char → List GTok
  | [] => []
  | '*' :: '*' :: rest => .globstar :: specToksLiteral rest
  | '*' :: rest => .star :: specToksLiteral rest
  | c :: rest => .lit c :: specToksLiteral rest

/-- Modelled from the spec (section 4.1): the matcher the specification
describes for patterns containing a star.  Two stars match any
character sequence (separators included, with no line-terminator
restriction), a single star matches any sequence without '/', and all
other characters are literal.  The trim front end is shared with the
source. -/
def specGlobOriginal (relPath pattern : String) : Bool :=
  let p := jsTrim pattern.data
  match compileAtoms (specToksLiteral p) with
  | none => false
  | some atoms => runGlobRegex (fun _ => true) atoms relPath.data

/-- Amended description of the glob construction: identical to the
spec's wording except that the escape step covers exactly the
characters of regexEscapeSet, leaving the question mark an active
regex quantifier, and the two-star wildcard inherits the JavaScript
dot semantics, matching any character except a line terminator. -/
def specToksAmended : List Char → List GTok
  | [] => []
  | '*' :: '*' :: rest => .globstar :: specToksAmended rest
  | '*' :: rest => .star :: specToksAmended rest
  | '?' :: rest => .quest :: specToksAmended rest
  | c :: rest => .lit c :: specToksAmended rest

/-- The matcher described by the amended claim C4. -/
def specGlobAmended (relPath pattern : String) : Bool :=
  let p := jsTrim pattern.data
  match compileAtoms (specToksAmended p) with
  | none => false
  | some atoms => runGlobRegex (fun c => !isLineTerminator c) atoms relPath.data

/-- Split a character list at every character satisfying p, keeping
empty pieces, as JavaScript String.prototype.split does with a
single-character-class regex separator. -/
def splitOnPred (p : Char → Bool) : List Char → List (List Char)
  | [] => [[]]
  | c :: rest =>
    match splitOnPred p rest with
    | [] => [[]]
    | l :: ls => if p c then [] :: l :: ls else (c :: l) :: ls

/-- JavaScript split(of newline) on a character list. -/
def splitNl : List Char → List (List Char) :=
  splitOnPred (fun c => c = '\n')

/-- The default-excluded path segments
(merge-to-md.js, DEFAULT_EXCLUDE_SEGMENTS, lines 100-113). -/
def defaultExcludeSegments : List String :=
  [".git", "node_modules", "temp", "tmp", ".tmp", ".temp", "vendor",
    ".venv", ".turbo", "dist", "__pycache__"]

/-- Embedding of isDefaultExcluded (merge-to-md.js lines 115-119):
split the path at '/' or '\', drop empty segments (filter(Boolean)),
and test whether some segment is in the default-exclude list. -/
def isDefaultExcluded (relPath : String) : Bool :=
  let segments := (splitOnPred (fun c => c = '/' || c = '\\')
    relPath.data).filter (fun s => !s.isEmpty)
  segments.any (fun seg => defaultExcludeSegments.contains (String.mk seg))

/-- Embedding of isExcluded (merge-to-md.js lines 166-170). -/
def isExcluded (relPath : String) (patterns : List String) : Bool :=
  if patterns.isEmpty then false
  else patterns.any (fun p => matchesGlob relPath p)

/-- Embedding of isIncluded (merge-to-md.js lines 172-176). -/
def isIncluded (relPath : String) (patterns : List String) : Bool :=
  if patterns.isEmpty then true
  else patterns.any (fun p => matchesGlob relPath p)

/-- The three pattern filter stages of main (merge-to-md.js lines
314-317), in source order: default exclusion, then the include
allow-list, then the except deny-list. -/
def filterPipeline (paths : List String)
    (includeList exceptList : List String) : List String :=
  ((paths.filter (fun rel => !isDefaultExcluded rel)).filter
      (fun rel => isIncluded rel includeList)).filter
    (fun rel => !isExcluded rel exceptList)

/-- JavaScript String.prototype.split with a plain non-empty string
separator: the string is cut at the leftmost non-overlapping
occurrences of the separator.  The fuel is the character count; every
step consumes at least one character (the separator is non-empty), so
the fuel never runs out. -/
def splitOnSubFuel (sep : List Char) : Nat → List Char → List (List Char)
  | _, [] => [[]]
  | 0, cs => [cs]
  | fuel + 1, c :: rest =>
    if sep.isPrefixOf (c :: rest) then
      [] :: splitOnSubFuel sep fuel (List.drop (sep.length - 1) rest)
    else
      match splitOnSubFuel sep fuel rest with
      | [] => [[c]]
      | l :: ls => (c :: l) :: ls

/-- JavaScript split with a non-empty string separator. -/
def splitOnSub (sep cs : List Char) : List (List Char) :=
  splitOnSubFuel sep cs.length cs

/-- JavaScript String.prototype.includes: substring containment. -/
def containsSub (sep : List Char) : List Char → Bool
  | [] => sep.isEmpty
  | c :: rest => sep.isPrefixOf (c :: rest) || containsSub sep rest

/-- The loop body of getGitChangedFiles (merge-to-md.js lines 237-246):
skip blank lines; read the two-character status code; skip the line
when either status column is 'D'; take the text from the fourth
character on, trimmed, and for a rename keep only the text after the
last " -> " (split and pop), trimmed; push the result. -/
def gitStep (paths : List String) (line : List Char) : List String :=
  if (jsTrim line).isEmpty then paths
  else
    let status := line.take 2
    if status.head? == some 'D' || (status.drop 1).head? == some 'D' then paths
    else
      let filePath := jsTrim (line.drop 3)
      let fp :=
        if containsSub (" -> " : String).data filePath then
          jsTrim ((splitOnSub (" -> " : String).data filePath).getLastD [])
        else filePath
      paths ++ [String.mk fp]

/-- Embedding of getGitChangedFiles (merge-to-md.js lines 233-248),
applied to the text the external status command printed: split the
text on newlines and run the loop body over the lines in order. -/
def getGitChangedFiles (out : String) : List String :=
  (splitNl out.data).foldl gitStep []

/-- Modelled from the claim's wording: the per-line treatment claim C7
describes.  A blank line yields nothing; a line whose two-character
status code has the delete flag 'D' in either column yields nothing; a
rename line yields the new path only (the text after the last " -> ");
every other line yields its path. -/
def gitLinePath (line : List Char) : Option String :=
  if (jsTrim line).isEmpty then none
  else if (line.take 2).head? == some 'D'
      || ((line.take 2).drop 1).head? == some 'D' then none
  else
    let filePath := jsTrim (line.drop 3)
    if containsSub (" -> " : String).data filePath then
      some (String.mk (jsTrim
        ((splitOnSub (" -> " : String).data filePath).getLastD [])))
    else some (String.mk filePath)

/-- Decimal digit characters of a natural number, most significant
first, as JavaScript renders a non-negative integer in a template
literal.  The fuel only forces structural termination; n / 10 shrinks
at every step, so fuel n + 1 never runs out. -/
def natToCharsFuel : Nat → Nat → List Char
  | 0, _ => []
  | fuel + 1, n =>
    if n < 10 then [Char.ofNat (48 + n)]
    else natToCharsFuel fuel (n / 10) ++ [Char.ofNat (48 + n % 10)]

/-- Decimal rendering of a natural number. -/
def natStr (n : Nat) : String := String.mk (natToCharsFuel (n + 1) n)

/-- The EXT_TO_LANG object (merge-to-md.js lines 121-140), as an
association list in source order. -/
def extToLangTable : List (String × String) :=
  [(".ts", "typescript"), (".tsx", "tsx"), (".js", "javascript"),
    (".jsx", "jsx"), (".mjs", "javascript"), (".cjs", "javascript"),
    (".md", "markdown"), (".mdx", "mdx"), (".json", "json"),
    (".css", "css"), (".scss", "scss"), (".html", "html"),
    (".sql", "sql"), (".py", "python"), (".sh", "shell"),
    (".yaml", "yaml"), (".yml", "yaml")]

/-- The property lookup EXT_TO_LANG[ext] ?? "" of the source; an
unmapped extension gives the empty tag. -/
def extToLang (ext : String) : String :=
  ((extToLangTable.find? (fun e => e.1 == ext)).map (fun e => e.2)).getD ""

/-- Node.js path.extname: the suffix of the basename from its last dot;
a path whose basename has no dot, has the dot in first position
(dotfiles), or is the special ".." segment gives the empty string. -/
def extnameChars (cs : List Char) : List Char :=
  let b := basenameChars cs
  if b = ['.', '.'] then []
  else
    let revTail := b.reverse.takeWhile (fun c => c ≠ '.')
    if revTail.length = b.length then []
    else if revTail.length + 1 = b.length then []
    else '.' :: revTail.reverse

/-- JavaScript Array.prototype.join with a newline separator. -/
def joinNl : List String → String
  | [] => ""
  | [b] => b
  | b :: bs => b ++ "\n" ++ joinNl bs

/-- The opening-fence payload of a file (merge-to-md.js lines 338-340):
language tag and path separated by a space, or just the path when the
extension is unmapped. -/
def mkOpening (relPath : String) : String :=
  let lang := extToLang (String.mk (extnameChars relPath.data))
  if lang == "" then relPath else lang ++ " " ++ relPath

/-- The rendered fenced block of one file (merge-to-md.js line 341). -/
def renderBlock (relPath content : String) : String :=
  "```" ++ mkOpening relPath ++ "\n" ++ content ++ "\n```\n"

/-- The fixed four-line preamble of the File Index table
(merge-to-md.js lines 346-347). -/
def tocHeader : String :=
  "# File Index\n\n| Path | Start | End |\n|------|-------|-----|"

/-- Lines a rendered block occupies, counted the way the source counts
them: block.split(of newline).length (merge-to-md.js line 354). -/
def blockLineCount (b : String) : Nat := (splitNl b.data).length

/-- The preamble line count plus one row per block plus the blank line
separating index from body: tocHeader.split(of newline).length +
blocks.length + 1 (merge-to-md.js line 350). -/
def tocLineCount (nblocks : Nat) : Nat :=
  (splitNl tocHeader.data).length + nblocks + 1

/-- Start and end line of each block, walking a running current line
exactly as the loop at merge-to-md.js lines 351-363 does: the block
starts at the current line, ends at current + lines - 1, and the next
block starts at current + lines. -/
def layoutFrom (cur : Nat) : List String → List (Nat × Nat)
  | [] => []
  | b :: bs =>
    (cur, cur + blockLineCount b - 1) :: layoutFrom (cur + blockLineCount b) bs

/-- The index entries (relPath, startLine, endLine) of a file list. -/
def mergeEntries (files : List (String × String)) : List (String × Nat × Nat) :=
  let blocks := files.map (fun f => renderBlock f.1 f.2)
  List.zipWith (fun (f : String × String) se => (f.1, se)) files
    (layoutFrom (tocLineCount blocks.length + 1) blocks)

/-- One index table row (merge-to-md.js line 366). -/
def rowString (e : String × Nat × Nat) : String :=
  "| " ++ e.1 ++ " | " ++ natStr e.2.1 ++ " | " ++ natStr e.2.2 ++ " |"

/-- The assembled document (merge-to-md.js lines 365-370): the header,
the rows, one blank line, then the blocks joined by single newlines
(each block already ends in a newline, which yields the blank
separator line between consecutive blocks). -/
def mergeDocument (files : List (String × String)) : String :=
  let blocks := files.map (fun f => renderBlock f.1 f.2)
  let toc := tocHeader ++ "\n" ++ joinNl ((mergeEntries files).map rowString)
  toc ++ "\n\n" ++ joinNl blocks

/-- The 1-based line of a document, in the sense of splitting its text
at newlines. -/
def lineAt (doc : String) (n : Nat) : Option (List Char) :=
  (splitNl doc.data)[n - 1]?

/-- The 1-based inclusive line range [s, e] of a document, as split at
newlines. -/
def linesSlice (doc : String) (s e : Nat) : List (List Char) :=
  ((splitNl doc.data).drop (s - 1)).take (e - s + 1)

/-- Concatenate lines back with newline separators (the inverse of
splitting at newlines). -/
def joinNlChars : List (List Char) → List Char
  | [] => []
  | [l] => l
  | l :: ls => l ++ '\n' :: joinNlChars ls

/-- Model of the working tree the Path Collector walks.  The
directory-listing capability (fs.existsSync, fs.statSync,
fs.readdirSync) is an external collaborator of the program; the tree
is modelled extensionally as the list of existing regular files with
their contents, together with the paths of entries that are neither
file nor directory.  Paths are the normalized repository-relative
strings that path.resolve and path.relative produce.  Directory
enumeration order is abstracted: collectPaths sorts its result, so
that order never reaches any output the claims mention. -/
structure FS where
  files : List (String × String)
  others : List String

/-- Character-level prefix test between strings. -/
def strHasPrefix (s pre : String) : Bool := pre.data.isPrefixOf s.data

/-- What resolving and stat-ing a path yields. -/
inductive PathKind where
  | file
  | dir
  | other
  | missing
deriving DecidableEq

/-- Resolve a normalized relative path against the model: a regular
file, a directory (an entry lies strictly beneath it), a special
entry, or missing. -/
def pathKind (fs : FS) (p : String) : PathKind :=
  if fs.files.any (fun f => f.1 == p) then .file
  else if fs.others.contains p then .other
  else if (fs.files.map (fun f => f.1) ++ fs.others).any
      (fun f => strHasPrefix f (p ++ "/")) then .dir
  else .missing

/-- The paths, relative to dir, of the regular files beneath dir, as
listFilesRecursive (merge-to-md.js lines 178-195) enumerates them;
entries that are neither file nor directory are skipped. -/
def listFilesUnder (fs : FS) (dir : String) : List String :=
  fs.files.filterMap (fun f =>
    if strHasPrefix f.1 (dir ++ "/") then
      some (String.mk (f.1.data.drop (dir.data.length + 1)))
    else none)

/-- The dedup-and-push step of collectPaths (lines 210-214, 219-223):
a path already in the seen set is skipped, otherwise it enters the
seen set and is appended to the output. -/
def addUnique (acc : List String × List String) (rel : String) :
    List String × List String :=
  if acc.1.contains rel then acc else (rel :: acc.1, acc.2 ++ [rel])

/-- One loop iteration of collectPaths (merge-to-md.js lines 202-228):
a missing path or a non-file non-directory is skipped with a warning;
a file argument is added under its own relative path; a directory
argument contributes every file beneath it, joined to the directory's
relative prefix (or bare when that prefix is empty). -/
def collectStep (fs : FS) (acc : List String × List String) (arg : String) :
    List String × List String :=
  match pathKind fs arg with
  | .missing => acc
  | .other => acc
  | .file => addUnique acc arg
  | .dir =>
    (listFilesUnder fs arg).foldl
      (fun a f => addUnique a (if arg == "" then f else arg ++ "/" ++ f)) acc

/-- Embedding of collectPaths (merge-to-md.js lines 197-231): walk the
arguments in order with a seen set and an output array, then sort the
output (Array.prototype.sort with no comparator sorts strings
lexicographically). -/
def collectPaths (fs : FS) (pathArgs : List String) : List String :=
  List.insertionSort (fun a b => a ≤ b)
    (pathArgs.foldl (collectStep fs) ([], [])).2

/-- Content of a regular file of the model. -/
def readFileFS (fs : FS) (p : String) : String :=
  (((fs.files.find? (fun f => f.1 == p))).map (fun f => f.2)).getD ""

/-- The existence-and-type re-check of main (merge-to-md.js lines
319-324): keep only paths that still resolve to a regular file. -/
def isRegularFile (fs : FS) (p : String) : Bool := pathKind fs p == .file

/-- Outcome of a run of main: usage error (exit code 1), the
"nothing to do" notice (exit code 0, no directory created, no file
written), or a written document (exit code 0). -/
inductive Outcome where
  | usageError
  | nothingToDo
  | written (doc : String)
deriving DecidableEq

/-- The file list after the four filter stages of main (lines 314-324):
collected (or git-derived) paths, then default exclusion, the include
allow-list, the except deny-list, and the defensive regular-file
re-check. -/
def finalFiles (fs : FS) (useGit : Bool) (gitOut : String)
    (pathArgs : List String) (includeList exceptList : List String) :
    List String :=
  let filePaths := if useGit then getGitChangedFiles gitOut
    else collectPaths fs pathArgs
  (filterPipeline filePaths includeList exceptList).filter
    (fun rel => isRegularFile fs rel)

/-- Embedding of main's control flow around the filters (merge-to-md.js
lines 292-330 and 386-388): no path arguments and no git flag is a
usage error (exit 1 before any filtering); an empty filtered list ends
the run with the notice and nothing written; otherwise the document of
the final list is assembled, the output directory is created and the
file is written. -/
def runMerge (fs : FS) (useGit : Bool) (gitOut : String)
    (pathArgs : List String) (includeList exceptList : List String) :
    Outcome :=
  if !useGit && pathArgs.isEmpty then .usageError
  else
    let fl := finalFiles fs useGit gitOut pathArgs includeList exceptList
    if fl.isEmpty then .nothingToDo
    else .written (mergeDocument (fl.map (fun p => (p, readFileFS fs p))))

/-- Exit code of an outcome. -/
def exitCode : Outcome → Nat
  | .usageError => 1
  | .nothingToDo => 0
  | .written _ => 0

/-- Whether the outcome touches the disk (creates the output directory
and writes the output file). -/
def wroteFile : Outcome → Bool
  | .written _ => true
  | _ => false

/- ===================== THEOREMS ===================== -/

/-- The tokenization the source's replace chain performs coincides with
the amended description: the escape step only rewrites characters that
the later steps treat literally anyway, so the only observable
difference from escaping is that the question mark stays active. -/
theorem globToks_eq_specToksAmended (cs : List Char) :
    globToks cs = specToksAmended cs := by
  induction cs using specToksAmended.induct with
  | case1 => rfl
  | case2 rest ih => simp [globToks, specToksAmended, ih]
  | case3 rest h ih => simp_all [globToks, specToksAmended]
  | case4 rest ih => simp_all [globToks, specToksAmended, regexEscapeSet]
  | case5 c rest h1 h2 ih =>
    cases hc : regexEscapeSet.contains c <;>
      simp_all [globToks, specToksAmended]

/-- Claim C3 (counterexample): the glob matcher rejects the pair
(relativePath = "a/b.ts", pattern = "*.ts"); the single star compiles
to a wildcard that cannot cross '/', so the anchored regex fails, while
the claim asserts the pair is accepted. -/
theorem C3_counterexample : matchesGlob "a/b.ts" "*.ts" = false := by decide

/-- Claim C3 (amended): matches("a/b.ts", "*.ts") returns false - the
single star does not match across '/', so the anchored glob only spans
a single path segment; the same pattern accepts the bare basename
"b.ts", and a two-star prefix is needed to span directories. -/
theorem C3_amended_thm :
    matchesGlob "a/b.ts" "*.ts" = false ∧ matchesGlob "b.ts" "*.ts" = true ∧
      matchesGlob "a/b/c.ts" "**/*.ts" = true := by decide

/-- Claim C4 (counterexample): the matcher does not treat every non-star
character literally.  The question mark is absent from the escape
character class, so in pattern "a?*.ts" it acts as a regex quantifier
making the "a" optional, and the path ".ts" is accepted although the
spec's construction (question mark literal) rejects it.  Moreover the
two-star wildcard inherits JavaScript dot semantics and cannot match a
newline, while the spec's construction (any character sequence)
accepts it. -/
theorem C4_counterexample :
    matchesGlob ".ts" "a?*.ts" = true ∧
      specGlobOriginal ".ts" "a?*.ts" = false ∧
      matchesGlob "a\nb" "**" = false ∧
      specGlobOriginal "a\nb" "**" = true := by decide

/-- Claim C4 (amended): for every pattern containing a star, the matcher
escapes exactly the characters . + ^ $ brace ( ) | [ ] \ of the
pattern; each two-star token becomes a wildcard matching any character
sequence without line terminators (JavaScript dot semantics), each
remaining star a wildcard matching any character sequence without '/',
an unescaped question mark acts as a regex optional quantifier on the
preceding element, and the resulting regex must match the entire
relativePath anchored at both ends. -/
theorem C4_amended_thm (relPath pattern : String)
    (h : (jsTrim pattern.data).contains '*' = true) :
    matchesGlob relPath pattern = specGlobAmended relPath pattern := by
  have hne : (jsTrim pattern.data).isEmpty = false := by
    cases hh : jsTrim pattern.data with
    | nil => rw [hh] at h; simp [List.contains] at h
    | cons a t => simp [List.isEmpty]
  simp only [matchesGlob, specGlobAmended, hne, h, Bool.false_eq_true,
    if_false, if_true, globToks_eq_specToksAmended]

/-- Witness for the amended claim C4 at a concrete input. -/
theorem C4_amended_witness :
    (jsTrim ("**/*.ts" : String).data).contains '*' = true ∧
      matchesGlob "a/b/c.ts" "**/*.ts" = specGlobAmended "a/b/c.ts" "**/*.ts" :=
  ⟨by decide, C4_amended_thm "a/b/c.ts" "**/*.ts" (by decide)⟩

/-- Claim C5 (counterexample): the matcher trims the pattern before
comparing, so the untrimmed pattern " foo.ts" accepts the path
"foo.ts" although the path equals neither the pattern verbatim, nor a
"/"-prefixed suffix of it, nor its final segment. -/
theorem C5_counterexample :
    matchesGlob "foo.ts" " foo.ts" = true ∧
      decide (("foo.ts" : String).data = (" foo.ts" : String).data) = false ∧
      ('/' :: (" foo.ts" : String).data).isSuffixOf ("foo.ts" : String).data
        = false ∧
      decide (basenameChars ("foo.ts" : String).data
        = (" foo.ts" : String).data) = false := by decide

/-- Claim C5 (amended): a pattern that trims to the empty string never
matches; and for every pattern whose trimmed form contains no star, the
matcher accepts exactly when the relativePath equals the trimmed
pattern, ends with "/" followed by the trimmed pattern, or has the
trimmed pattern as its basename (final non-empty path segment). -/
theorem C5_amended_thm (relPath pattern : String) :
    (jsTrim pattern.data = [] → matchesGlob relPath pattern = false) ∧
    (jsTrim pattern.data ≠ [] → (jsTrim pattern.data).contains '*' = false →
      matchesGlob relPath pattern =
        ((relPath.data = jsTrim pattern.data : Bool) ||
          (('/' :: jsTrim pattern.data).isSuffixOf relPath.data) ||
          (basenameChars relPath.data = jsTrim pattern.data : Bool))) := by
  constructor
  · intro h
    simp [matchesGlob, h]
  · intro h1 h2
    have hne : (jsTrim pattern.data).isEmpty = false := by
      cases hh : jsTrim pattern.data with
      | nil => exact absurd hh h1
      | cons a t => simp [List.isEmpty]
    simp only [matchesGlob, hne, h2, Bool.false_eq_true, if_false]

/-- Witness for the amended claim C5: the basename clause accepts a bare
filename at depth. -/
theorem C5_amended_witness : matchesGlob "a/b/foo.ts" "foo.ts" = true := by
  have h := (C5_amended_thm "a/b/foo.ts" "foo.ts").2 (by decide) (by decide)
  rw [h]; decide

/-- Claim C6: the filter pipeline applies default exclusion first, so a
path with a default-excluded segment never survives, whatever the
include list says; and with include pattern "*.ts" and except pattern
"a.ts" the path "a.ts" is dropped although the include pattern accepts
it. -/
theorem C6_thm :
    (∀ (paths includeList exceptList : List String) (rel : String),
        isDefaultExcluded rel = true →
        rel ∉ filterPipeline paths includeList exceptList) ∧
      isIncluded "a.ts" ["*.ts"] = true ∧
      "a.ts" ∉ filterPipeline ["a.ts"] ["*.ts"] ["a.ts"] := by
  refine ⟨?_, by decide, by decide⟩
  intro paths inc exc rel h hmem
  have h1 : rel ∈ paths.filter (fun r => !isDefaultExcluded r) :=
    List.mem_of_mem_filter (List.mem_of_mem_filter hmem)
  have h2 := List.of_mem_filter h1
  rw [h] at h2
  simp at h2

/-- Witness for claim C6: a file under node_modules is dropped even
though it matches the include pattern "x.ts". -/
theorem C6_witness :
    isDefaultExcluded "node_modules/x.ts" = true ∧
      isIncluded "node_modules/x.ts" ["x.ts"] = true ∧
      "node_modules/x.ts" ∉ filterPipeline ["node_modules/x.ts"] ["x.ts"] [] :=
  ⟨by decide, by decide,
    C6_thm.1 ["node_modules/x.ts"] ["x.ts"] [] "node_modules/x.ts" (by decide)⟩

/-- The loop body of the Change-Set Provider appends exactly what the
per-line description yields. -/
theorem gitStep_eq (acc : List String) (line : List Char) :
    gitStep acc line = acc ++ (gitLinePath line).toList := by
  simp only [gitStep, gitLinePath]
  split
  · simp
  · split
    · simp
    · split <;> simp

/-- Folding the loop body over the lines collects the per-line yields
in order. -/
theorem foldl_gitStep (lines : List (List Char)) :
    ∀ acc : List String,
      lines.foldl gitStep acc = acc ++ lines.filterMap gitLinePath := by
  induction lines with
  | nil => intro acc; simp
  | cons l ls ih =>
    intro acc
    simp only [List.foldl_cons, List.filterMap_cons]
    rw [ih, gitStep_eq]
    cases gitLinePath l <;> simp

/-- Claim C7: the Change-Set Provider yields, in the command's original
line order, exactly the per-line results: blank lines and lines with
the delete flag in either status column yield nothing (such a line's
path never reaches the result), a rename line of the form
old - arrow - new yields the new path only, and every other line
yields its path. -/
theorem C7_thm (out : String) :
    getGitChangedFiles out = (splitNl out.data).filterMap gitLinePath ∧
      gitLinePath ("D  removed.ts" : String).data = none ∧
      gitLinePath (" D also-removed.ts" : String).data = none ∧
      gitLinePath ("R  old.ts -> new.ts" : String).data = some "new.ts" ∧
      gitLinePath ("M  kept.ts" : String).data = some "kept.ts" := by
  refine ⟨?_, by decide, by decide, by decide, by decide⟩
  simpa using foldl_gitStep (splitNl out.data) []

/-- The dedup step preserves the collector invariant: the output list
has no duplicates and every output element is in the seen set. -/
theorem addUnique_inv (acc : List String × List String) (rel : String)
    (h1 : acc.2.Nodup) (h2 : ∀ x ∈ acc.2, x ∈ acc.1) :
    (addUnique acc rel).2.Nodup ∧
      ∀ x ∈ (addUnique acc rel).2, x ∈ (addUnique acc rel).1 := by
  unfold addUnique
  split
  · exact ⟨h1, h2⟩
  · rename_i hc
    have hrel : rel ∉ acc.2 := by
      intro hmem
      exact hc (List.elem_iff.mpr (h2 rel hmem))
    constructor
    · simp [List.nodup_append, h1, hrel]
    · intro x hx
      rcases List.mem_append.mp hx with hx | hx
      · exact List.mem_cons_of_mem _ (h2 x hx)
      · simp only [List.mem_singleton] at hx
        subst hx
        exact List.mem_cons_self _ _

/-- Folding the dedup step over any list of candidates preserves the
collector invariant. -/
theorem foldl_addUnique_inv (g : String → String) (l : List String) :
    ∀ acc : List String × List String, acc.2.Nodup →
      (∀ x ∈ acc.2, x ∈ acc.1) →
      (l.foldl (fun a f => addUnique a (g f)) acc).2.Nodup ∧
        ∀ x ∈ (l.foldl (fun a f => addUnique a (g f)) acc).2,
          x ∈ (l.foldl (fun a f => addUnique a (g f)) acc).1 := by
  induction l with
  | nil => intro acc h1 h2; exact ⟨h1, h2⟩
  | cons f fs ih =>
    intro acc h1 h2
    have h := addUnique_inv acc (g f) h1 h2
    exact ih _ h.1 h.2

/-- Each argument's loop iteration preserves the collector invariant. -/
theorem collectStep_inv (fs : FS) (acc : List String × List String)
    (arg : String) (h1 : acc.2.Nodup) (h2 : ∀ x ∈ acc.2, x ∈ acc.1) :
    (collectStep fs acc arg).2.Nodup ∧
      ∀ x ∈ (collectStep fs acc arg).2, x ∈ (collectStep fs acc arg).1 := by
  unfold collectStep
  cases pathKind fs arg with
  | missing => exact ⟨h1, h2⟩
  | other => exact ⟨h1, h2⟩
  | file => exact addUnique_inv acc arg h1 h2
  | dir =>
    exact foldl_addUnique_inv
      (fun f => if arg == "" then f else arg ++ "/" ++ f)
      (listFilesUnder fs arg) acc h1 h2

/-- The whole collector loop preserves the invariant. -/
theorem foldl_collectStep_inv (fs : FS) (args : List String) :
    ∀ acc : List String × List String, acc.2.Nodup →
      (∀ x ∈ acc.2, x ∈ acc.1) →
      (args.foldl (collectStep fs) acc).2.Nodup := by
  induction args with
  | nil => intro acc h1 _; exact h1
  | cons a as ih =>
    intro acc h1 h2
    have h := collectStep_inv fs acc a h1 h2
    exact ih _ h.1 h.2

/-- Claim C8: the Path Collector's result never repeats a relative path
(even one reachable through two overlapping arguments, as the concrete
overlap example shows: the file src/a.ts reached both through the
folder argument src and directly appears exactly once) and is
lexicographically sorted. -/
theorem C8_thm (fs : FS) (pathArgs : List String) :
    (collectPaths fs pathArgs).Nodup ∧
      List.Sorted (fun a b => a ≤ b) (collectPaths fs pathArgs) ∧
      collectPaths ⟨[("src/a.ts", "x")], []⟩ ["src", "src/a.ts"]
        = ["src/a.ts"] := by
  refine ⟨?_, List.sorted_insertionSort _ _, by decide⟩
  have h := foldl_collectStep_inv fs pathArgs ([], []) (by simp) (by simp)
  exact ((List.perm_insertionSort _ _).nodup_iff).mpr h

/-- Claim C9: whenever the run gets past the usage check and the filter
pipeline leaves an empty file list, main prints the notice and exits
with code 0, writing no file and creating no output directory. -/
theorem C9_thm (fs : FS) (useGit : Bool) (gitOut : String)
    (pathArgs includeList exceptList : List String)
    (hmode : useGit = true ∨ pathArgs ≠ [])
    (hempty : finalFiles fs useGit gitOut pathArgs includeList exceptList
      = []) :
    runMerge fs useGit gitOut pathArgs includeList exceptList
        = .nothingToDo ∧
      exitCode (runMerge fs useGit gitOut pathArgs includeList exceptList)
        = 0 ∧
      wroteFile (runMerge fs useGit gitOut pathArgs includeList exceptList)
        = false := by
  have hguard : (!useGit && pathArgs.isEmpty) = false := by
    rcases hmode with h | h
    · simp [h]
    · simp [List.isEmpty_iff, h]
  have hrun : runMerge fs useGit gitOut pathArgs includeList exceptList
      = .nothingToDo := by
    unfold runMerge
    rw [hguard]
    simp [hempty]
  exact ⟨hrun, by rw [hrun]; rfl, by rw [hrun]; rfl⟩

/-- Witness for claim C9: git mode over a clean tree (empty status
output) filters down to no files and ends in the notice outcome. -/
theorem C9_witness :
    finalFiles ⟨[], []⟩ true "" [] [] [] = [] ∧
      runMerge ⟨[], []⟩ true "" [] [] [] = .nothingToDo :=
  ⟨by decide, (C9_thm ⟨[], []⟩ true "" [] [] [] (Or.inl rfl) (by decide)).1⟩

/-- Appending strings concatenates their character lists. -/
theorem data_append (a b : String) : (a ++ b).data = a.data ++ b.data := rfl

/-- Splitting never yields an empty list of pieces. -/
theorem splitOnPred_ne_nil (p : Char → Bool) (cs : List Char) :
    splitOnPred p cs ≠ [] := by
  cases cs with
  | nil => simp [splitOnPred]
  | cons c rest =>
    rw [splitOnPred]
    cases splitOnPred p rest with
    | nil => simp
    | cons l ls =>
      dsimp only
      split <;> simp

/-- A leading newline contributes an empty first line. -/
theorem splitNl_cons_newline (cs : List Char) :
    splitNl ('\n' :: cs) = [] :: splitNl cs := by
  rw [splitNl, splitOnPred]
  cases h : splitOnPred (fun c => c = '\n') cs with
  | nil => exact absurd h (splitOnPred_ne_nil _ _)
  | cons l ls => simp [splitNl, h]

/-- Splitting at newlines distributes over an explicit newline join. -/
theorem splitNl_append_cons (xs ys : List Char) :
    splitNl (xs ++ '\n' :: ys) = splitNl xs ++ splitNl ys := by
  induction xs with
  | nil => simpa using splitNl_cons_newline ys
  | cons c xs ih =>
    simp only [List.cons_append]
    rw [splitNl, splitOnPred]
    rw [splitNl] at ih
    rw [ih]
    cases h : splitOnPred (fun c => c = '\n') xs with
    | nil => exact absurd h (splitOnPred_ne_nil _ _)
    | cons l ls =>
      by_cases hc : c = '\n' <;> simp [splitNl, splitOnPred, h, hc]

/-- A newline-free character list is a single line. -/
theorem splitNl_no_newline (cs : List Char) (h : '\n' ∉ cs) :
    splitNl cs = [cs] := by
  induction cs with
  | nil => rfl
  | cons c rest ih =>
    have hc : ¬ c = '\n' := fun hh => h (hh ▸ List.mem_cons_self c rest)
    have hr : '\n' ∉ rest := fun hh => h (List.mem_cons_of_mem _ hh)
    rw [splitNl, splitOnPred]
    rw [splitNl] at ih
    rw [ih hr]
    simp [hc]

/-- A trailing newline contributes an empty last line. -/
theorem splitNl_append_newline (xs : List Char) :
    splitNl (xs ++ ['\n']) = splitNl xs ++ [[]] := by
  simpa [splitNl, splitOnPred] using splitNl_append_cons xs []

/-- Rejoining the pieces of a newline split restores the text. -/
theorem joinNlChars_splitNl (cs : List Char) :
    joinNlChars (splitNl cs) = cs := by
  induction cs with
  | nil => rfl
  | cons c rest ih =>
    rw [splitNl, splitOnPred]
    rw [splitNl] at ih
    cases h : splitOnPred (fun c => c = '\n') rest with
    | nil => exact absurd h (splitOnPred_ne_nil _ _)
    | cons l ls =>
      rw [h] at ih
      by_cases hc : c = '\n'
      · subst hc
        simp only [if_pos rfl, joinNlChars, List.nil_append]
        rw [ih]
      · simp only [hc, decide_eq_false hc, Bool.false_eq_true, if_false]
        cases ls with
        | nil => simp only [joinNlChars] at ih ⊢; rw [ih]
        | cons l2 ls2 =>
          simp only [joinNlChars] at ih ⊢
          rw [List.cons_append, ih]

/-- Joining a head onto a non-empty tail inserts one newline. -/
theorem data_joinNl_cons (b : String) (bs : List String) (h : bs ≠ []) :
    (joinNl (b :: bs)).data = b.data ++ '\n' :: (joinNl bs).data := by
  cases bs with
  | nil => exact absurd rfl h
  | cons b2 bs2 =>
    have hj : joinNl (b :: b2 :: bs2) = b ++ "\n" ++ joinNl (b2 :: bs2) := rfl
    rw [hj, data_append, data_append, List.append_assoc]
    rfl

/-- Splitting a join of newline-free strings recovers the pieces. -/
theorem splitNl_joinNl_single (ls : List String) (hne : ls ≠ [])
    (h : ∀ s ∈ ls, '\n' ∉ s.data) :
    splitNl (joinNl ls).data = ls.map (fun s => s.data) := by
  induction ls with
  | nil => exact absurd rfl hne
  | cons b bs ih =>
    cases bs with
    | nil =>
      show splitNl b.data = [b.data]
      exact splitNl_no_newline b.data (h b (by simp))
    | cons b2 bs2 =>
      rw [data_joinNl_cons b (b2 :: bs2) (by simp), splitNl_append_cons,
        splitNl_no_newline b.data (h b (by simp)),
        ih (by simp) (fun s hs => h s (List.mem_cons_of_mem _ hs))]
      simp

/-- Splitting a join of arbitrary strings concatenates the splits:
the pieces of each string, in order.  (A string ending in a newline
thus contributes its own trailing empty line, which is exactly the
blank separator the assembled document shows between blocks.) -/
theorem splitNl_joinNl_flatten (bs : List String) (hne : bs ≠ []) :
    splitNl (joinNl bs).data
      = (bs.map (fun b => splitNl b.data)).flatten := by
  induction bs with
  | nil => exact absurd rfl hne
  | cons b rest ih =>
    cases rest with
    | nil => simp [joinNl]
    | cons b2 bs2 =>
      rw [data_joinNl_cons b (b2 :: bs2) (by simp), splitNl_append_cons,
        ih (by simp)]
      simp

/-- Every block spans at least one line. -/
theorem blockLineCount_pos (b : String) : 1 ≤ blockLineCount b := by
  unfold blockLineCount splitNl
  cases h : splitOnPred (fun c => c = '\n') b.data with
  | nil => exact absurd h (splitOnPred_ne_nil _ _)
  | cons l ls => simp

/-- The language table never emits a newline. -/
theorem extToLang_no_newline (s : String) : '\n' ∉ (extToLang s).data := by
  unfold extToLang
  cases h : extToLangTable.find? (fun e => e.1 == s) with
  | none => simp
  | some e =>
    have hmem := List.mem_of_find?_eq_some h
    simp only [extToLangTable, List.mem_cons, List.not_mem_nil, or_false]
      at hmem
    rcases hmem with h | h | h | h | h | h | h | h | h | h | h | h | h | h
      | h | h | h <;> subst h <;> decide

/-- The opening-fence payload of a newline-free path is newline-free. -/
theorem mkOpening_no_newline (p : String) (hp : '\n' ∉ p.data) :
    '\n' ∉ (mkOpening p).data := by
  simp only [mkOpening]
  by_cases hl : extToLang (String.mk (extnameChars p.data)) == ""
  · simp only [hl, if_true]
    exact hp
  · simp only [hl, Bool.false_eq_true, if_false]
    intro hmem
    rw [data_append, data_append] at hmem
    rcases List.mem_append.mp hmem with hh | hh
    · rcases List.mem_append.mp hh with hh2 | hh2
      · exact extToLang_no_newline _ hh2
      · simp at hh2
    · exact hp hh

/-- Digits of the decimal rendering stay in the digit range. -/
theorem natToCharsFuel_digits (fuel : Nat) :
    ∀ n : Nat, ∀ c ∈ natToCharsFuel fuel n,
      48 ≤ c.toNat ∧ c.toNat ≤ 57 := by
  have hdigit : ∀ m : Nat, m < 10 →
      48 ≤ (Char.ofNat (48 + m)).toNat ∧ (Char.ofNat (48 + m)).toNat ≤ 57 := by
    intro m hm
    interval_cases m <;> decide
  induction fuel with
  | zero => intro n c hc; simp [natToCharsFuel] at hc
  | succ fuel ih =>
    intro n c hc
    rw [natToCharsFuel] at hc
    split at hc
    · rename_i h
      simp only [List.mem_singleton] at hc
      subst hc
      exact hdigit n h
    · rcases List.mem_append.mp hc with hh | hh
      · exact ih _ c hh
      · simp only [List.mem_singleton] at hh
        subst hh
        exact hdigit _ (Nat.mod_lt _ (by norm_num))

/-- The decimal rendering of a line number never contains a newline. -/
theorem natStr_no_newline (n : Nat) : '\n' ∉ (natStr n).data := by
  intro h
  have hd := natToCharsFuel_digits (n + 1) n '\n' h
  have hv : ('\n').toNat = 10 := rfl
  omega

/-- An index row of a newline-free path is a single line. -/
theorem rowString_no_newline (e : String × Nat × Nat)
    (hp : '\n' ∉ e.1.data) : '\n' ∉ (rowString e).data := by
  unfold rowString
  simp only [data_append, List.mem_append]
  rintro ((((((h | h) | h) | h) | h) | h) | h) <;>
    first
      | exact absurd h (by decide)
      | exact hp h
      | exact natStr_no_newline _ h

/-- The character list of a rendered block, grouped around its two
structural newlines: opening line, content, closing fence with its
trailing newline. -/
theorem data_renderBlock (p c : String) :
    (renderBlock p c).data
      = ("```" ++ mkOpening p).data
          ++ '\n' :: (c.data ++ '\n' :: ("```\n" : String).data) := by
  show ("```" ++ mkOpening p ++ "\n" ++ c ++ "\n```\n").data = _
  simp only [data_append, List.append_assoc]
  rfl

/-- Splitting a rendered block whose opening line is newline-free:
the opening fence line, then the content lines, then the closing fence
line and the empty piece contributed by the block's trailing newline. -/
theorem splitNl_renderBlock (p c : String)
    (hp : '\n' ∉ (mkOpening p).data) :
    splitNl (renderBlock p c).data
      = ("```" ++ mkOpening p).data
          :: (splitNl c.data ++ [("```" : String).data, []]) := by
  have hop : '\n' ∉ ("```" ++ mkOpening p).data := by
    rw [data_append]
    intro hmem
    rcases List.mem_append.mp hmem with hh | hh
    · exact absurd hh (by decide)
    · exact hp hh
  have htail : splitNl ("```\n" : String).data
      = [("```" : String).data, []] := by decide
  rw [data_renderBlock, splitNl_append_cons, splitNl_append_cons,
    splitNl_no_newline _ hop, htail]
  simp

/-- Whatever the path and content, the split of a rendered block ends
with the closing fence line followed by one empty piece, and when the
content ends in a newline the piece before the closing fence is also
empty. -/
theorem splitNl_renderBlock_tail (p c : String) :
    ∃ S : List (List Char),
      splitNl (renderBlock p c).data
          = S ++ [("```" : String).data, []] ∧
        S ≠ [] ∧
        (c.data.getLast? = some '\n' → S.getLast? = some []) := by
  refine ⟨splitNl (("```" ++ mkOpening p).data ++ '\n' :: c.data), ?_, ?_, ?_⟩
  · have hgroup : (renderBlock p c).data
        = (("```" ++ mkOpening p).data ++ '\n' :: c.data)
            ++ '\n' :: ("```\n" : String).data := by
      rw [data_renderBlock]
      simp [List.append_assoc]
    rw [hgroup, splitNl_append_cons]
    congr 1
  · exact splitOnPred_ne_nil _ _
  · intro hlast
    obtain ⟨C, hC⟩ := List.getLast?_eq_some_iff.mp hlast
    rw [hC]
    have hgroup : ("```" ++ mkOpening p).data ++ '\n' :: (C ++ ['\n'])
        = (("```" ++ mkOpening p).data ++ '\n' :: C) ++ ['\n'] := by
      simp
    rw [hgroup, splitNl_append_newline]
    exact List.getLast?_concat _

/-- Claim C10: the rendered fenced block of a file is exactly the
opening fence line, a newline, the verbatim content, a newline, the
closing fence, and a final newline; consequently the piece before the
last (the second-to-last line of the block) is always the bare closing
fence - the closing fence starts on its own line even when the content
does not end with a newline - and when the content does end with a
newline the line immediately before the closing fence is an extra
blank line. -/
theorem C10_thm (relPath content : String) :
    renderBlock relPath content
        = "```" ++ mkOpening relPath ++ "\n" ++ content ++ "\n```\n" ∧
      (splitNl (renderBlock relPath content).data)[
          (splitNl (renderBlock relPath content).data).length - 2]?
        = some ("```" : String).data ∧
      (splitNl (renderBlock relPath content).data).getLast? = some [] ∧
      (content.data.getLast? = some '\n' →
        (splitNl (renderBlock relPath content).data)[
            (splitNl (renderBlock relPath content).data).length - 3]?
          = some []) := by
  obtain ⟨S, hS, hSne, hSlast⟩ := splitNl_renderBlock_tail relPath content
  have hlen : (splitNl (renderBlock relPath content).data).length
      = S.length + 2 := by
    rw [hS]; simp
  refine ⟨rfl, ?_, ?_, ?_⟩
  · rw [hS]
    have h2 : (S ++ [("```" : String).data, []]).length - 2 = S.length := by
      simp
    rw [h2, List.getElem?_append_right (Nat.le_refl _)]
    simp
  · rw [hS]
    have : S ++ [("```" : String).data, []]
        = (S ++ [("```" : String).data]) ++ [[]] := by simp
    rw [this]
    exact List.getLast?_concat _
  · intro hnl
    have hSpos : 1 ≤ S.length := by
      cases S with
      | nil => exact absurd rfl hSne
      | cons a t => simp
    rw [hS]
    have h3 : (S ++ [("```" : String).data, []]).length - 3 = S.length - 1 := by
      simp
    rw [h3, List.getElem?_append_left (by omega)]
    rw [← List.getLast?_eq_getElem? S]
    exact hSlast hnl

/-- Witness for claim C10 at a concrete file: content ending in a
newline produces the extra blank line before the closing fence. -/
theorem C10_witness :
    (("x\n" : String).data.getLast? = some '\n') ∧
      (splitNl (renderBlock "a.md" "x\n").data)[
          (splitNl (renderBlock "a.md" "x\n").data).length - 3]?
        = some [] :=
  ⟨by decide, (C10_thm "a.md" "x\n").2.2.2 (by decide)⟩

/-- The layout loop yields one start/end pair per block. -/
theorem layoutFrom_length (cur : Nat) (bs : List String) :
    (layoutFrom cur bs).length = bs.length := by
  induction bs generalizing cur with
  | nil => rfl
  | cons b bs ih => simp [layoutFrom, ih]

/-- There is one index entry per file. -/
theorem mergeEntries_length (files : List (String × String)) :
    (mergeEntries files).length = files.length := by
  simp [mergeEntries, layoutFrom_length]

/-- Every index entry carries the path of one of the files. -/
theorem zipWith_layout_mem (files : List (String × String)) :
    ∀ (cur : Nat) (e : String × Nat × Nat),
      e ∈ List.zipWith (fun (f : String × String) se => (f.1, se)) files
        (layoutFrom cur (files.map (fun f => renderBlock f.1 f.2))) →
      ∃ f ∈ files, e.1 = f.1 := by
  induction files with
  | nil => intro cur e h; simp at h
  | cons f fs ih =>
    intro cur e h
    rw [List.map_cons, layoutFrom, List.zipWith_cons_cons] at h
    rcases List.mem_cons.mp h with he | he
    · exact ⟨f, List.mem_cons_self _ _, by rw [he]⟩
    · obtain ⟨g, hg, hge⟩ := ih _ e he
      exact ⟨g, List.mem_cons_of_mem _ hg, hge⟩

/-- Every index entry carries the path of one of the files. -/
theorem mergeEntries_path_mem (files : List (String × String)) :
    ∀ e ∈ mergeEntries files, ∃ f ∈ files, e.1 = f.1 := by
  intro e he
  simp only [mergeEntries] at he
  exact zipWith_layout_mem files _ e he

/-- The four preamble lines of the File Index table. -/
theorem splitNl_tocHeader :
    splitNl tocHeader.data
      = [("# File Index" : String).data, [],
          ("| Path | Start | End |" : String).data,
          ("|------|-------|-----|" : String).data] := by decide

/-- The table preamble counts four lines, as the source's split-based
count computes. -/
theorem tocLineCount_eq (n : Nat) : tocLineCount n = 4 + n + 1 := by
  rw [tocLineCount, splitNl_tocHeader]
  rfl

/-- Splitting the assembled document: the four preamble lines, one line
per index row, the blank line, then the concatenated line lists of the
blocks. -/
theorem mergeDocument_split (files : List (String × String))
    (hne : files ≠ []) (hp : ∀ f ∈ files, '\n' ∉ f.1.data) :
    splitNl (mergeDocument files).data
      = (splitNl tocHeader.data
            ++ (mergeEntries files).map (fun e => (rowString e).data)
            ++ [[]])
          ++ ((files.map (fun f => renderBlock f.1 f.2)).map
              (fun b => splitNl b.data)).flatten := by
  have hentries_ne : mergeEntries files ≠ [] := by
    intro h
    have := mergeEntries_length files
    rw [h] at this
    cases files with
    | nil => exact hne rfl
    | cons f fs => simp at this
  have hrows_ne : (mergeEntries files).map rowString ≠ [] := by
    intro h
    exact hentries_ne (List.map_eq_nil_iff.mp h)
  have hrows_nl : ∀ s ∈ (mergeEntries files).map rowString,
      '\n' ∉ s.data := by
    intro s hs
    obtain ⟨e, he, rfl⟩ := List.mem_map.mp hs
    obtain ⟨f, hf, hef⟩ := mergeEntries_path_mem files e he
    exact rowString_no_newline e (hef ▸ hp f hf)
  have hblocks_ne : files.map (fun f => renderBlock f.1 f.2) ≠ [] := by
    intro h
    exact hne (List.map_eq_nil_iff.mp h)
  simp only [mergeDocument]
  have h1 : ((tocHeader ++ "\n"
        ++ joinNl ((mergeEntries files).map rowString)) ++ "\n\n"
        ++ joinNl (files.map (fun f => renderBlock f.1 f.2))).data
      = tocHeader.data
          ++ '\n' :: ((joinNl ((mergeEntries files).map rowString)).data
            ++ '\n' :: ('\n'
              :: (joinNl (files.map (fun f => renderBlock f.1 f.2))).data)) := by
    simp only [data_append, List.append_assoc]
    rfl
  rw [h1, splitNl_append_cons, splitNl_append_cons, splitNl_cons_newline,
    splitNl_joinNl_single _ hrows_ne hrows_nl,
    splitNl_joinNl_flatten _ hblocks_ne]
  simp

/-- A rendered block spans at least three lines: the opening fence, the
closing fence, and the empty piece after the trailing newline. -/
theorem blockLineCount_renderBlock_ge (p c : String) :
    3 ≤ blockLineCount (renderBlock p c) := by
  obtain ⟨S, hS, hne, _⟩ := splitNl_renderBlock_tail p c
  have h1 : 1 ≤ S.length := by
    cases S with
    | nil => exact absurd rfl hne
    | cons a t => simp
  have : blockLineCount (renderBlock p c)
      = (splitNl (renderBlock p c).data).length := rfl
  rw [this, hS]
  simp only [List.length_append, List.length_cons, List.length_nil]
  omega

/-- The last piece of a rendered block's split is empty (the block ends
with a newline). -/
theorem splitNl_renderBlock_last (p c : String) :
    (splitNl (renderBlock p c).data)[
      blockLineCount (renderBlock p c) - 1]? = some [] := by
  obtain ⟨S, hS, _, _⟩ := splitNl_renderBlock_tail p c
  have hb : blockLineCount (renderBlock p c) = S.length + 2 := by
    have : blockLineCount (renderBlock p c)
        = (splitNl (renderBlock p c).data).length := rfl
    rw [this, hS]; simp
  rw [hS, hb]
  have h2 : S.length + 2 - 1 = S.length + 1 := by omega
  rw [h2, List.getElem?_append_right (by omega)]
  have h3 : S.length + 1 - S.length = 1 := by omega
  rw [h3]
  rfl

/-- The second-to-last piece of a rendered block's split is the bare
closing fence. -/
theorem splitNl_renderBlock_penult (p c : String) :
    (splitNl (renderBlock p c).data)[
      blockLineCount (renderBlock p c) - 2]?
      = some ("```" : String).data := by
  obtain ⟨S, hS, _, _⟩ := splitNl_renderBlock_tail p c
  have hb : blockLineCount (renderBlock p c) = S.length + 2 := by
    have : blockLineCount (renderBlock p c)
        = (splitNl (renderBlock p c).data).length := rfl
    rw [this, hS]; simp
  rw [hS, hb]
  have h2 : S.length + 2 - 2 = S.length := by omega
  rw [h2, List.getElem?_append_right (by omega)]
  have h3 : S.length - S.length = 0 := by omega
  rw [h3]
  rfl

/-- Walking the layout over the blocks: the i-th recorded line range,
cut out of any document that lays the blocks' lines after a prefix,
recovers exactly the i-th block's lines. -/
theorem layout_slice (bs : List String) :
    ∀ (Pre Suf : List (List Char)) (i : Nat) (b : String),
      bs[i]? = some b →
      ∃ se : Nat × Nat,
        (layoutFrom (Pre.length + 1) bs)[i]? = some se ∧
          se.2 + 1 = se.1 + blockLineCount b ∧ 1 ≤ se.1 ∧
          ((Pre ++ (bs.map (fun x => splitNl x.data)).flatten ++ Suf).drop
              (se.1 - 1)).take (se.2 + 1 - se.1)
            = splitNl b.data := by
  induction bs with
  | nil => intro Pre Suf i b h; simp at h
  | cons b0 rest ih =>
    intro Pre Suf i b h
    cases i with
    | zero =>
      rw [List.getElem?_cons_zero] at h
      injection h with h
      subst h
      refine ⟨(Pre.length + 1, Pre.length + 1 + blockLineCount b0 - 1),
        by simp [layoutFrom], ?_, by omega, ?_⟩
      · have := blockLineCount_pos b0
        simp only
        omega
      · have harr : Pre ++ ((b0 :: rest).map (fun x => splitNl x.data)).flatten
              ++ Suf
            = Pre ++ (splitNl b0.data
              ++ ((rest.map (fun x => splitNl x.data)).flatten ++ Suf)) := by
          simp [List.append_assoc]
        have hdrop : Pre.length + 1 - 1 = Pre.length := by omega
        have htake : Pre.length + 1 + blockLineCount b0 - 1 + 1
            - (Pre.length + 1) = blockLineCount b0 := by
          have := blockLineCount_pos b0
          omega
        simp only [harr, hdrop, htake, List.drop_left]
        exact List.take_left' rfl
    | succ j =>
      have hj : rest[j]? = some b := by simpa using h
      obtain ⟨se, hse, hlen, hpos, hslice⟩ :=
        ih (Pre ++ splitNl b0.data) Suf j b hj
      refine ⟨se, ?_, hlen, hpos, ?_⟩
      · rw [layoutFrom, List.getElem?_cons_succ]
        have heq : (Pre ++ splitNl b0.data).length + 1
            = Pre.length + 1 + blockLineCount b0 := by
          simp only [List.length_append, blockLineCount]
          omega
        rw [← heq]
        exact hse
      · have harr : Pre ++ ((b0 :: rest).map (fun x => splitNl x.data)).flatten
              ++ Suf
            = (Pre ++ splitNl b0.data)
              ++ (rest.map (fun x => splitNl x.data)).flatten ++ Suf := by
          simp [List.append_assoc]
        rw [harr]
        exact hslice

/-- Core round-trip fact: the i-th index entry carries the i-th file's
path and a line range that cuts the i-th rendered block's lines out of
the assembled document. -/
theorem mergeEntries_slice (files : List (String × String))
    (hp : ∀ f ∈ files, '\n' ∉ f.1.data) (i : Nat) (p c : String)
    (hi : files[i]? = some (p, c)) :
    ∃ s e, (mergeEntries files)[i]? = some (p, s, e) ∧
      e + 1 = s + blockLineCount (renderBlock p c) ∧ 1 ≤ s ∧
      (i = 0 → s = tocLineCount files.length + 1) ∧
      linesSlice (mergeDocument files) s e
        = splitNl (renderBlock p c).data ∧
      ∀ j : Nat, j < blockLineCount (renderBlock p c) →
        lineAt (mergeDocument files) (s + j)
          = (splitNl (renderBlock p c).data)[j]? := by
  have hne : files ≠ [] := by
    intro hh
    subst hh
    simp at hi
  have hbi : (files.map (fun f => renderBlock f.1 f.2))[i]?
      = some (renderBlock p c) := by
    rw [List.getElem?_map, hi]
    rfl
  have hPreLen : (splitNl tocHeader.data
      ++ (mergeEntries files).map (fun e => (rowString e).data)
      ++ [[]]).length = tocLineCount files.length := by
    rw [tocLineCount_eq, splitNl_tocHeader]
    simp only [List.length_append, List.length_cons, List.length_nil,
      List.length_map, mergeEntries_length]
  obtain ⟨se, hse, hlen, hpos, hslice⟩ :=
    layout_slice (files.map (fun f => renderBlock f.1 f.2))
      (splitNl tocHeader.data
        ++ (mergeEntries files).map (fun e => (rowString e).data) ++ [[]])
      [] i (renderBlock p c) hbi
  have hLb := blockLineCount_renderBlock_ge p c
  have hdoc : splitNl (mergeDocument files).data
      = (splitNl tocHeader.data
          ++ (mergeEntries files).map (fun e => (rowString e).data) ++ [[]])
        ++ ((files.map (fun f => renderBlock f.1 f.2)).map
            (fun b => splitNl b.data)).flatten ++ [] := by
    rw [List.append_nil]
    exact mergeDocument_split files hne hp
  rw [← hdoc] at hslice
  have hstart : tocLineCount (files.map (fun f => renderBlock f.1 f.2)).length
        + 1
      = (splitNl tocHeader.data
          ++ (mergeEntries files).map (fun e => (rowString e).data)
          ++ [[]]).length + 1 := by
    rw [hPreLen, List.length_map]
  have hentry : (mergeEntries files)[i]? = some (p, se) := by
    simp only [mergeEntries]
    rw [List.getElem?_zipWith', hi, hstart, hse]
    rfl
  refine ⟨se.1, se.2, hentry, hlen, hpos, ?_, ?_, ?_⟩
  · intro hi0
    subst hi0
    have hhead : (layoutFrom
        ((splitNl tocHeader.data
          ++ (mergeEntries files).map (fun e => (rowString e).data)
          ++ [[]]).length + 1)
        (files.map (fun f => renderBlock f.1 f.2)))[0]?
        = some ((splitNl tocHeader.data
          ++ (mergeEntries files).map (fun e => (rowString e).data)
          ++ [[]]).length + 1,
          (splitNl tocHeader.data
          ++ (mergeEntries files).map (fun e => (rowString e).data)
          ++ [[]]).length + 1
            + blockLineCount (renderBlock p c) - 1) := by
      cases hf : files with
      | nil => exact absurd hf hne
      | cons f0 fs =>
        have : f0 = (p, c) := by
          rw [hf] at hi
          simpa using hi
        subst this
        simp [layoutFrom]
    rw [hhead] at hse
    have hse1 : se.1
        = (splitNl tocHeader.data
          ++ (mergeEntries files).map (fun e => (rowString e).data)
          ++ [[]]).length + 1 := by
      injection hse with hse2
      rw [← hse2]
    rw [hse1, hPreLen]
  · have hconv : se.2 - se.1 + 1 = se.2 + 1 - se.1 := by omega
    rw [linesSlice, hconv]
    exact hslice
  · intro j hj
    have hjlt : j < se.2 + 1 - se.1 := by omega
    rw [lineAt]
    have hidx : se.1 + j - 1 = (se.1 - 1) + j := by omega
    rw [hidx, ← List.getElem?_drop, ← List.getElem?_take_of_lt hjlt, hslice]

/-- Claim C1 (counterexample): for the single merged file "a.txt" with
content "x" the index records the range 7-10, but the closing fence of
the block sits on line 9 of the document and line 10 is the empty line
that follows it - the recorded endLine is not the line number of the
closing fence. -/
theorem C1_counterexample :
    mergeEntries [(("a.txt" : String), ("x" : String))]
        = [("a.txt", 7, 10)] ∧
      lineAt (mergeDocument [("a.txt", "x")]) 9
        = some ("```" : String).data ∧
      lineAt (mergeDocument [("a.txt", "x")]) 10 = some [] := by decide

/-- Claim C1 (amended): for every produced document (paths being
newline-free), the lines from startLine to endLine of any index row,
taken from the newline split of the document text, are exactly the
newline split of that file's rendered fenced block - rejoining them
with newlines reproduces the block verbatim, its trailing newline
included (the last extracted piece is the empty line after the closing
fence).  The recorded endLine is thus the line following the closing
fence - the blank separator line, or the trailing empty line for the
last file - and the closing fence itself sits at line endLine - 1. -/
theorem C1_amended_thm (files : List (String × String))
    (hp : ∀ f ∈ files, '\n' ∉ f.1.data) (i : Nat) (p c : String)
    (hi : files[i]? = some (p, c)) :
    ∃ s e, (mergeEntries files)[i]? = some (p, s, e) ∧
      linesSlice (mergeDocument files) s e
          = splitNl (renderBlock p c).data ∧
      joinNlChars (linesSlice (mergeDocument files) s e)
          = (renderBlock p c).data ∧
      lineAt (mergeDocument files) e = some [] ∧
      lineAt (mergeDocument files) (e - 1)
          = some ("```" : String).data := by
  obtain ⟨s, e, hentry, hlen, hpos, _, hslice, hline⟩ :=
    mergeEntries_slice files hp i p c hi
  have hLb := blockLineCount_renderBlock_ge p c
  refine ⟨s, e, hentry, hslice, ?_, ?_, ?_⟩
  · rw [hslice, joinNlChars_splitNl]
  · have he : e = s + (blockLineCount (renderBlock p c) - 1) := by omega
    rw [he, hline _ (by omega)]
    exact splitNl_renderBlock_last p c
  · have he : e - 1 = s + (blockLineCount (renderBlock p c) - 2) := by omega
    rw [he, hline _ (by omega)]
    exact splitNl_renderBlock_penult p c

/-- Witness for the amended claim C1 at a concrete two-file document:
the second file's row records lines 12-16, those lines are exactly the
block of b.ts, line 16 is the trailing empty line and line 15 the
closing fence. -/
theorem C1_amended_witness :
    (mergeEntries [(("a.txt" : String), ("x" : String)),
        (("b.ts" : String), ("hi\n" : String))])[1]?
        = some ("b.ts", 12, 16) ∧
      linesSlice (mergeDocument [("a.txt", "x"), ("b.ts", "hi\n")]) 12 16
        = splitNl (renderBlock "b.ts" "hi\n").data ∧
      lineAt (mergeDocument [("a.txt", "x"), ("b.ts", "hi\n")]) 16
        = some [] ∧
      lineAt (mergeDocument [("a.txt", "x"), ("b.ts", "hi\n")]) 15
        = some ("```" : String).data := by
  obtain ⟨s, e, h1, h2, _, h4, h5⟩ :=
    C1_amended_thm [("a.txt", "x"), ("b.ts", "hi\n")] (by decide) 1
      "b.ts" "hi\n" (by decide)
  have hc : (mergeEntries [(("a.txt" : String), ("x" : String)),
      (("b.ts" : String), ("hi\n" : String))])[1]?
      = some ("b.ts", 12, 16) := by decide
  rw [hc] at h1
  injection h1 with h1
  have hs : s = 12 := by
    have := congrArg (fun q => q.2.1) h1
    simpa using this.symm
  have he : e = 16 := by
    have := congrArg (fun q => q.2.2) h1
    simpa using this.symm
  subst hs
  subst he
  exact ⟨hc, h2, h4, h5⟩

/-- Claim C2: for a non-empty filtered list of N files (paths being
newline-free), the index table occupies 4 preamble lines plus N row
lines plus 1 blank separator line, the recorded startLine of the first
index row is N + 6, and line N + 6 of the output text is the first
file's opening fence. -/
theorem C2_thm (p c : String) (rest : List (String × String))
    (hp : ∀ f ∈ (p, c) :: rest, '\n' ∉ f.1.data) :
    tocLineCount ((p, c) :: rest).length
        = 4 + ((p, c) :: rest).length + 1 ∧
      (∃ e, (mergeEntries ((p, c) :: rest))[0]?
          = some (p, ((p, c) :: rest).length + 6, e)) ∧
      lineAt (mergeDocument ((p, c) :: rest)) (((p, c) :: rest).length + 6)
        = some (("```" ++ mkOpening p).data) := by
  obtain ⟨s, e, hentry, hlen, hpos, hs0, hslice, hline⟩ :=
    mergeEntries_slice ((p, c) :: rest) hp 0 p c (by simp)
  have hs : s = ((p, c) :: rest).length + 6 := by
    rw [hs0 rfl, tocLineCount_eq]
    omega
  subst hs
  refine ⟨tocLineCount_eq _, ⟨e, hentry⟩, ?_⟩
  have hLb := blockLineCount_renderBlock_ge p c
  have hl := hline 0 (by omega)
  rw [Nat.add_zero] at hl
  rw [hl]
  rw [splitNl_renderBlock p c (mkOpening_no_newline p (hp (p, c) (by simp)))]
  simp

/-- Witness for claim C2 at a concrete two-file list: the first row
records startLine 8 = 2 + 6 and line 8 of the document is the opening
fence of a.txt. -/
theorem C2_witness :
    tocLineCount 2 = 4 + 2 + 1 ∧
      (∃ e, (mergeEntries [(("a.txt" : String), ("x" : String)),
          (("b.ts" : String), ("hi\n" : String))])[0]?
          = some ("a.txt", 8, e)) ∧
      lineAt (mergeDocument [("a.txt", "x"), ("b.ts", "hi\n")]) 8
        = some (("```" ++ mkOpening "a.txt").data) :=
  C2_thm "a.txt" "x" [("b.ts", "hi\n")] (by decide)
